import Mathlib

/-!
Verification development for the streaming acoustic-event trigger service
(`service/zero_trigger.py`).  The definitions below are a shallow embedding of
the pieces of `TriggerProcessor` that the verified properties are about:

* the sliding window buffer `samples_stack` together with its eviction loop
  (`run`, the lines appending a received frame and popping old frames),
* the time/quota/hour gate (`run`, the `date_end` / `remaining_triggers` /
  `check_hour` conditions, and the daily trigger-counter reset),
* the Leq scan (reference pressure, the loop reading the most recent
  `patch_window_seconds * sample_rate` samples, and the `10*log10` formula),
* the automatic gain step of `process_tags`,
* the hybrid RSA+AES export (`encrypt`) and the capture budget
  (`remaining_samples`).

Audio samples are modelled as exact rationals (idealizing the float32
arithmetic of the service); quantities that the service computes with
transcendental functions (`log10`, `10 ** x`) are modelled over the reals.
Arithmetic faults that Python raises (ZeroDivisionError, ValueError from
`math.log10` on a nonpositive argument) are modelled by `Option`, with `none`
for the fault.
-/

/-- An audio frame: the `array('f', socket.recv())` packet, an ordered
sequence of samples. -/
abbrev AudioFrame := List ℚ

/-- Total retained sample count across all frames of `samples_stack`
(`sum([len(s) for s in self.samples_stack])`). -/
def stackSamples (st : List AudioFrame) : ℕ := (st.map List.length).sum

/-- `keep_only_samples = max(cached_length, patch_window_seconds) * sample_rate`
from `TriggerProcessor.run`. -/
def keep_only_samples (cachedLength patchWindowSeconds : ℚ) (sampleRate : ℕ) : ℚ :=
  max cachedLength patchWindowSeconds * sampleRate

/-- The eviction loop of `TriggerProcessor.run`:
`while sum([len(s) for s in self.samples_stack]) > keep_only_samples + len(audio_data_bytes):
self.samples_stack.popleft()`.  `lastLen` is the length of the frame that was
just appended. -/
def evict (keepOnly : ℚ) (lastLen : ℕ) : List AudioFrame → List AudioFrame
  | [] => []
  | f :: rest =>
    if keepOnly + lastLen < (stackSamples (f :: rest) : ℚ) then evict keepOnly lastLen rest
    else f :: rest

/-- `self.samples_stack.append(audio_data_bytes)` followed by the eviction
loop. -/
def append_evict (keepOnly : ℚ) (st : List AudioFrame) (f : AudioFrame) : List AudioFrame :=
  evict keepOnly f.length (st ++ [f])

lemma evict_suffix (k : ℚ) (n : ℕ) : ∀ l : List AudioFrame, (evict k n l).IsSuffix l
  | [] => by simp [evict]
  | f :: rest => by
    rw [evict]
    split
    · exact (evict_suffix k n rest).trans (List.suffix_cons f rest)
    · exact List.suffix_refl _

lemma evict_total_le (k : ℚ) (n : ℕ) (hk : 0 ≤ k) :
    ∀ l : List AudioFrame, (stackSamples (evict k n l) : ℚ) ≤ k + n
  | [] => by
    have : (0 : ℚ) ≤ k + n := by positivity
    simpa [evict, stackSamples] using this
  | f :: rest => by
    rw [evict]
    split
    · exact evict_total_le k n hk rest
    · next h => exact le_of_not_lt h

lemma evict_getLast (k : ℚ) (hk : 0 ≤ k) (f : AudioFrame) :
    ∀ l : List AudioFrame, l.getLast? = some f →
      evict k f.length l ≠ [] ∧ (evict k f.length l).getLast? = some f
  | [], h => by simp at h
  | [g], h => by
    have hg : g = f := by simpa using h
    subst hg
    have hcond : ¬ (k + (g.length : ℚ) < (stackSamples [g] : ℚ)) := by
      simp only [stackSamples, List.map_cons, List.map_nil, List.sum_cons, List.sum_nil,
        Nat.add_zero, not_lt]
      nlinarith [hk]
    rw [evict, if_neg hcond]
    exact ⟨by simp, by simp⟩
  | g :: r :: rs, h => by
    have htail : (r :: rs).getLast? = some f := by
      simpa [List.getLast?_cons_cons] using h
    rw [evict]
    split
    · exact evict_getLast k hk f (r :: rs) htail
    · refine ⟨by simp, ?_⟩
      simpa [List.getLast?_cons_cons] using htail

/-- Claim C1: after each append and its eviction loop, the total retained
sample count never exceeds
`max(cached_length, classifier_patch_window_seconds) * sample_rate` plus the
length of the just-appended frame, and eviction only removes whole frames from
the oldest end (the resulting stack is a suffix of the stack with the new
frame appended).  The hypothesis `0 ≤ patchWindowSeconds` reflects the fixed
classifier constant (`patch_window_seconds = 0.96`). -/
theorem samples_stack_bounded (cachedLength patchWindowSeconds : ℚ) (sampleRate : ℕ)
    (hp : 0 ≤ patchWindowSeconds) (st : List AudioFrame) (f : AudioFrame) :
    (stackSamples (append_evict (keep_only_samples cachedLength patchWindowSeconds sampleRate) st f) : ℚ)
        ≤ keep_only_samples cachedLength patchWindowSeconds sampleRate + f.length ∧
      (append_evict (keep_only_samples cachedLength patchWindowSeconds sampleRate) st f).IsSuffix
        (st ++ [f]) := by
  have hk : 0 ≤ keep_only_samples cachedLength patchWindowSeconds sampleRate := by
    have h1 : 0 ≤ max cachedLength patchWindowSeconds := le_trans hp (le_max_right _ _)
    have h2 : (0 : ℚ) ≤ (sampleRate : ℚ) := by positivity
    exact mul_nonneg h1 h2
  exact ⟨evict_total_le _ _ hk _, evict_suffix _ _ _⟩

/-- Witness for `samples_stack_bounded` at the service defaults
(`cached_length = 5`, `patch_window_seconds = 0.96`, `sample_rate = 48000`). -/
theorem samples_stack_bounded_witness :
    (0 : ℚ) ≤ 96 / 100 ∧
      ((stackSamples (append_evict (keep_only_samples 5 (96 / 100) 48000) [[1, 2, 3]] [4, 5]) : ℚ)
          ≤ keep_only_samples 5 (96 / 100) 48000 + ([4, 5] : AudioFrame).length ∧
        (append_evict (keep_only_samples 5 (96 / 100) 48000) [[1, 2, 3]] [4, 5]).IsSuffix
          ([[1, 2, 3]] ++ [[4, 5]])) :=
  ⟨by norm_num, samples_stack_bounded 5 (96 / 100) 48000 (by norm_num) [[1, 2, 3]] [4, 5]⟩

/-- Claim C10: the eviction loop never evicts the frame just appended; after
every append-and-evict step the buffer is non-empty and its newest element is
still the appended frame, in full. -/
theorem newest_frame_survives (cachedLength patchWindowSeconds : ℚ) (sampleRate : ℕ)
    (hp : 0 ≤ patchWindowSeconds) (st : List AudioFrame) (f : AudioFrame) :
    append_evict (keep_only_samples cachedLength patchWindowSeconds sampleRate) st f ≠ [] ∧
      (append_evict (keep_only_samples cachedLength patchWindowSeconds sampleRate) st f).getLast?
        = some f := by
  have hk : 0 ≤ keep_only_samples cachedLength patchWindowSeconds sampleRate := by
    have h1 : 0 ≤ max cachedLength patchWindowSeconds := le_trans hp (le_max_right _ _)
    have h2 : (0 : ℚ) ≤ (sampleRate : ℚ) := by positivity
    exact mul_nonneg h1 h2
  exact evict_getLast _ hk f _ (by simp)

/-- Witness for `newest_frame_survives`. -/
theorem newest_frame_survives_witness :
    (0 : ℚ) ≤ 96 / 100 ∧
      (append_evict (keep_only_samples 5 (96 / 100) 48000) [[1, 2, 3]] [4, 5] ≠ [] ∧
        (append_evict (keep_only_samples 5 (96 / 100) 48000) [[1, 2, 3]] [4, 5]).getLast?
          = some [4, 5]) :=
  ⟨by norm_num, newest_frame_survives 5 (96 / 100) 48000 (by norm_num) [[1, 2, 3]] [4, 5]⟩

/-- The byte width per sample format from the dictionary
`format_byte_width` in `TriggerProcessor.__init__` (keys S16_LE, S32_LE,
FLOAT_LE, S24_3LE, S24_LE mapped to 2, 4, 4, 3, 4). -/
inductive SampleFormat
  | s16le
  | s32le
  | floatle
  | s243le
  | s24le
deriving DecidableEq

def format_byte_width : SampleFormat → ℕ
  | .s16le => 2
  | .s32le => 4
  | .floatle => 4
  | .s243le => 3
  | .s24le => 4

/-- `self.bytes_per_seconds = self.sample_rate * sample_length`. -/
def bytes_per_seconds (sampleRate sampleLength : ℕ) : ℕ := sampleRate * sampleLength

/-- `self.remaining_samples = int(self.bytes_per_seconds * self.config.total_length)`
from the qualifying-trigger branch of `TriggerProcessor.run` (Python `int`
truncation on the nonnegative product is the floor). -/
def capture_budget (bps : ℕ) (totalLength : ℚ) : ℤ := ⌊(bps : ℚ) * totalLength⌋

/-- Claim C9 (code bug): for `total_length = 10` at `sample_rate = 48000` with
the default FLOAT_LE format the code initializes the capture budget to
`bytes_per_seconds * total_length = 1920000`, a BYTE count, although the
budget is decremented by array-element (sample) counts while draining; the
specified number of drained samples is `total_length * sample_rate = 480000`. -/
theorem capture_budget_is_in_bytes :
    format_byte_width SampleFormat.floatle = 4 ∧
      capture_budget (bytes_per_seconds 48000 (format_byte_width SampleFormat.floatle)) 10
        = 1920000 ∧
      capture_budget (bytes_per_seconds 48000 (format_byte_width SampleFormat.floatle)) 10
        ≠ 480000 ∧
      (480000 : ℤ) = 10 * 48000 := by
  have hb : bytes_per_seconds 48000 (format_byte_width SampleFormat.floatle) = 192000 := rfl
  have hcast : ((192000 : ℕ) : ℚ) * 10 = ((1920000 : ℤ) : ℚ) := by norm_num
  have hfloor : capture_budget 192000 10 = 1920000 := by
    rw [capture_budget, hcast, Int.floor_intCast]
  refine ⟨rfl, by rw [hb, hfloor], by rw [hb, hfloor]; norm_num, by norm_num⟩

/-- The three-way branch of the `wait_trigger` arm of `TriggerProcessor.run`:
`if cur_time > self.config.date_end: self.samples_stack = collections.deque();
self.socket.disconnect()` versus
`elif self.remaining_triggers > 0 and cur_time > self.config.date_start and
self.check_hour(): ...` (enter the scan loop) versus doing nothing.  The
result records the taken branch together with the new `samples_stack` and the
transport connection flag. -/
inductive WaitAction
  | disableDetection
  | enterScan
  | idle
deriving DecidableEq

def waitStep (dateStart dateEnd : ℚ) (remainingTriggers : ℕ) (curTime : ℚ)
    (hourOk : Bool) (stack : List AudioFrame) (connected : Bool) :
    WaitAction × List AudioFrame × Bool :=
  if dateEnd < curTime then (.disableDetection, [], false)
  else if 0 < remainingTriggers ∧ dateStart < curTime ∧ hourOk = true then
    (.enterScan, stack, connected)
  else (.idle, stack, connected)

/-- Claim C2 counterexample: at `now = date_end` exactly (so `now ≥ date_end`),
with quota and hour conditions passing, the code still enters the scan loop
and keeps the buffer: the comparison on line 207 is strict (`cur_time >
date_end`), so the claimed deactivation at `now ≥ date_end` does not hold. -/
theorem gate_active_at_date_end_exactly :
    (100 : ℚ) ≤ 100 ∧
      waitStep 0 100 1 100 true [[1]] true = (WaitAction.enterScan, [[1]], true) := by
  constructor
  · norm_num
  · rw [waitStep, if_neg (by norm_num), if_pos ⟨by norm_num, by norm_num, rfl⟩]

/-- Claim C2 (amended): for every configuration and every `now` STRICTLY past
`date_end`, the gate is inactive: the scan branch is not entered, the window
buffer is emptied and the transport is disconnected; and since wall-clock time
is non-decreasing, every later instant is also strictly past `date_end`, so
detection never re-activates. -/
theorem gate_disabled_after_date_end (dateStart dateEnd : ℚ) (remainingTriggers : ℕ)
    (curTime : ℚ) (hourOk : Bool) (stack : List AudioFrame) (connected : Bool)
    (h : dateEnd < curTime) :
    waitStep dateStart dateEnd remainingTriggers curTime hourOk stack connected
        = (WaitAction.disableDetection, [], false) ∧
      ∀ later : ℚ, curTime ≤ later → dateEnd < later := by
  refine ⟨by rw [waitStep, if_pos h], fun later hl => lt_of_lt_of_le h hl⟩

/-- Witness for `gate_disabled_after_date_end`. -/
theorem gate_disabled_after_date_end_witness :
    (100 : ℚ) < 101 ∧
      (waitStep 0 100 7 101 true [[1]] true = (WaitAction.disableDetection, [], false) ∧
        ∀ later : ℚ, 101 ≤ later → (100 : ℚ) < later) :=
  ⟨by norm_num, gate_disabled_after_date_end 0 100 7 101 true [[1]] true (by norm_num)⟩

/-- `TriggerProcessor.check_hour`, with the current local time passed in as
`(th, tm)` (hour, minute) and the optional configuration entries as options:
returns `True` immediately when `start_hour` is not configured; otherwise
requires the time to be at or past `start_hour` and, when `end_hour` is
configured, strictly before `end_hour`. -/
def check_hour (startHour endHour : Option (ℕ × ℕ)) (th tm : ℕ) : Bool :=
  match startHour with
  | none => true
  | some (h, m) =>
    let startOk : Bool := decide (h < th ∨ (th = h ∧ m ≤ tm))
    let endOk : Bool :=
      match endHour with
      | none => true
      | some (eh, em) => decide (th < eh ∨ (th = eh ∧ tm < em))
    startOk && endOk

/-- The hour window exactly as claim C3 words it: the start side is
unconstrained when `start_hour` is absent, but the `end_hour` bound (when
configured) still applies; when both are present it is the half-open window
from `start_hour` (inclusive) to `end_hour` (exclusive). -/
def hour_window_claim (startHour endHour : Option (ℕ × ℕ)) (th tm : ℕ) : Bool :=
  (match startHour with
   | none => true
   | some (h, m) => decide (h < th ∨ (th = h ∧ m ≤ tm))) &&
  (match endHour with
   | none => true
   | some (eh, em) => decide (th < eh ∨ (th = eh ∧ tm < em)))

/-- Claim C3 counterexample: with `start_hour` absent and `end_hour = 08:00`,
at local time 09:00 the claim requires the check to fail (09:00 is not before
08:00), but `check_hour` returns `True` unconditionally because the absence of
`start_hour` short-circuits the whole check (`if "start_hour" not in
self.config: return True`), ignoring the configured `end_hour`. -/
theorem check_hour_ignores_end_without_start :
    check_hour none (some (8, 0)) 9 0 = true ∧
      hour_window_claim none (some (8, 0)) 9 0 = false := by
  exact ⟨rfl, rfl⟩

/-- Claim C3 (amended): when `start_hour` is absent `check_hour` returns true
unconditionally (a configured `end_hour` is ignored); when `start_hour` is
present the check agrees with the claimed semantics: true iff the time is at
or past `start_hour` and, if `end_hour` is configured, strictly before
`end_hour` (half-open window at minute granularity). -/
theorem check_hour_amended (s : ℕ × ℕ) (endHour : Option (ℕ × ℕ)) (th tm : ℕ) :
    check_hour none endHour th tm = true ∧
      check_hour (some s) endHour th tm = hour_window_claim (some s) endHour th tm := by
  obtain ⟨h, m⟩ := s
  cases endHour with
  | none => exact ⟨rfl, rfl⟩
  | some e => obtain ⟨eh, em⟩ := e; exact ⟨rfl, rfl⟩

/-- The daily rollover observer at the top of the `TriggerProcessor.run` loop:
`if last_day_of_year != datetime.datetime.now().timetuple().tm_yday and
"trigger_count" in self.config: ... self.remaining_triggers =
self.config.trigger_count`.  Returns the new `(last_day_of_year,
remaining_triggers)`. -/
def day_rollover (lastDay today : ℕ) (hasTriggerCount : Bool)
    (triggerCount remaining : ℕ) : ℕ × ℕ :=
  if lastDay ≠ today ∧ hasTriggerCount = true then (today, triggerCount)
  else (lastDay, remaining)

/-- The qualifying-trigger branch of `TriggerProcessor.run` (`if leq >=
self.config.min_leq:` through the end of the scan body).  It runs the
classifier, sets `remaining_samples = int(bytes_per_seconds * total_length)`,
and leaves `remaining_triggers` untouched: the decrement
`self.remaining_triggers -= 1` is commented out in the source.  The result is
the new `(remaining_triggers, remaining_samples)`. -/
def trigger_decision (remainingTriggers : ℕ) (remainingSamples : ℤ) (leq minLeq : ℚ)
    (bps : ℕ) (totalLength : ℚ) : ℕ × ℤ :=
  if minLeq ≤ leq then (remainingTriggers, capture_budget bps totalLength)
  else (remainingTriggers, remainingSamples)

/-- Claim C4 counterexample: a qualifying trigger decision (Leq 40 ≥ min_leq
30, classification runs) leaves `remaining_triggers` at 5 instead of
decrementing it to 4 — the decrement statement is commented out in the
source. -/
theorem quota_not_decremented :
    (30 : ℚ) ≤ 40 ∧ (trigger_decision 5 0 40 30 192000 10).1 ≠ 5 - 1 := by
  refine ⟨by norm_num, ?_⟩
  rw [trigger_decision, if_pos (by norm_num : (30 : ℚ) ≤ 40)]
  decide

/-- Claim C4 (amended): the quota is never decremented by a qualifying
trigger decision (the decrement is commented out in the source), so it also
never goes below zero; independently, whenever `remaining_triggers = 0` the
gate never enters the scan branch (so no Leq scan or classification runs),
and a day rollover with a configured `trigger_count` resets the quota to the
configured value. -/
theorem quota_amended (remainingTriggers : ℕ) (remainingSamples : ℤ) (leq minLeq : ℚ)
    (bps : ℕ) (totalLength : ℚ) (dateStart dateEnd curTime : ℚ) (hourOk : Bool)
    (stack : List AudioFrame) (connected : Bool) (lastDay today triggerCount rem : ℕ)
    (hday : lastDay ≠ today) :
    (trigger_decision remainingTriggers remainingSamples leq minLeq bps totalLength).1
        = remainingTriggers ∧
      (waitStep dateStart dateEnd 0 curTime hourOk stack connected).1
        ≠ WaitAction.enterScan ∧
      day_rollover lastDay today true triggerCount rem = (today, triggerCount) := by
  refine ⟨?_, ?_, ?_⟩
  · rw [trigger_decision]; split <;> rfl
  · rw [waitStep]
    split
    · simp
    · rw [if_neg (by simp)]
      simp
  · rw [day_rollover, if_pos ⟨hday, rfl⟩]

/-- Witness for `quota_amended`. -/
theorem quota_amended_witness :
    (1 : ℕ) ≠ 2 ∧
      ((trigger_decision 5 0 40 30 192000 10).1 = 5 ∧
        (waitStep 0 100 0 50 true [[1]] true).1 ≠ WaitAction.enterScan ∧
        day_rollover 1 2 true 10 0 = (2, 10)) :=
  ⟨by decide, quota_amended 5 0 40 30 192000 10 0 100 50 true [[1]] true 1 2 10 0 (by decide)⟩

/-- `log10` over the reals, as used by `math.log10`. -/
noncomputable def log10 (x : ℝ) : ℝ := Real.log x / Real.log 10

/-- `reference_pressure = 1 / 10 ** ((94 - self.config.sensitivity) / 20.0)`
from the Leq scan of `TriggerProcessor.run`. -/
noncomputable def reference_pressure (sensitivity : ℝ) : ℝ :=
  1 / (10 : ℝ) ^ ((94 - sensitivity) / 20)

/-- `samples_to_process = int(patch_window_seconds * sample_rate)` (Python
`int` truncation of the nonnegative product is the floor). -/
def samples_to_process (patchWindowSeconds : ℚ) (sampleRate : ℕ) : ℤ :=
  ⌊patchWindowSeconds * (sampleRate : ℚ)⌋

/-- The per-frame slices read by the Leq loop of `TriggerProcessor.run`
(`for samples in reversed(self.samples_stack): ...`), with the frame list
given newest-first.  When a frame would overshoot `target`, only its final
`target - processed` samples are kept (`waveform = waveform[window:]`), and
the loop stops once `processed >= target`. -/
def scanCollect : List AudioFrame → ℕ → ℕ → List AudioFrame
  | [], _, _ => []
  | f :: rest, target, processed =>
    if target ≤ processed then []
    else if target < f.length + processed then
      f.drop (f.length - (target - processed)) ::
        scanCollect rest target (processed + (f.drop (f.length - (target - processed))).length)
    else f :: scanCollect rest target (processed + f.length)

/-- `processed_samples` accumulated by the Leq loop. -/
def scanProcessed (ws : List AudioFrame) : ℕ := (ws.map List.length).sum

/-- `sum_samples` accumulated by the Leq loop:
`sum_samples += np.sum(np.power(np.array(waveform) / reference_pressure, 2.0))`. -/
noncomputable def scanSumSq (ρ : ℝ) (ws : List AudioFrame) : ℝ :=
  (ws.map (fun w => ((w.map (fun s : ℚ => ((s : ℝ) / ρ) ^ 2)).sum))).sum

/-- The most recent `n` samples of the concatenated retained stream. -/
def lastN (n : ℕ) (xs : List ℚ) : List ℚ := xs.drop (xs.length - n)

open Classical in
/-- `leq = 10 * math.log10(sum_samples / processed_samples)` from
`TriggerProcessor.run`.  `none` models the arithmetic faults Python raises on
this line: ZeroDivisionError when `processed_samples = 0` and ValueError
(math domain error) when the argument of `log10` is not positive — the code
has no guard for either. -/
noncomputable def computeLeq (st : List AudioFrame) (ρ : ℝ) (target : ℕ) : Option ℝ :=
  if scanProcessed (scanCollect st.reverse target 0) ≠ 0 ∧
      0 < scanSumSq ρ (scanCollect st.reverse target 0) /
        (scanProcessed (scanCollect st.reverse target 0) : ℝ) then
    some (10 * log10 (scanSumSq ρ (scanCollect st.reverse target 0) /
      (scanProcessed (scanCollect st.reverse target 0) : ℝ)))
  else none

/-- One Leq scan: the computed Leq together with the new value of
`unprocessed_samples`, which the code sets to `0` right after computing the
Leq and before comparing it to `min_leq` (so regardless of the outcome of
that comparison). -/
noncomputable def scanStep (st : List AudioFrame) (ρ : ℝ) (target : ℕ)
    (_unprocessed : ℕ) : Option ℝ × ℕ :=
  (computeLeq st ρ target, 0)

/-- The scan-due test
`unprocessed_samples / self.config.sample_rate >= self.config.yamnet_scan_interval`. -/
def scanDue (unprocessed sampleRate : ℕ) (interval : ℚ) : Prop :=
  interval ≤ (unprocessed : ℚ) / (sampleRate : ℚ)

lemma scanCollect_of_le (l : List AudioFrame) (target processed : ℕ)
    (h : target ≤ processed) : scanCollect l target processed = [] := by
  cases l with
  | nil => rfl
  | cons f rest => rw [scanCollect, if_pos h]

lemma scanCollect_flatten : ∀ (l : List AudioFrame) (target processed : ℕ),
    ((scanCollect l target processed).reverse).flatten
      = lastN (target - processed) l.reverse.flatten
  | [], t, p => by
    simp [scanCollect, lastN]
  | f :: rest, t, p => by
    by_cases h : t ≤ p
    · rw [scanCollect, if_pos h]
      have h0 : t - p = 0 := by omega
      rw [h0, lastN]
      simp [List.drop_eq_nil_of_le]
    · rw [scanCollect, if_neg h]
      have hA : (f :: rest).reverse.flatten = rest.reverse.flatten ++ f := by
        rw [List.reverse_cons, List.flatten_concat]
      by_cases hf : t < f.length + p
      · rw [if_pos hf]
        have hwlen : (f.drop (f.length - (t - p))).length = t - p := by
          rw [List.length_drop]; omega
        have htail : scanCollect rest t (p + (f.drop (f.length - (t - p))).length) = [] := by
          apply scanCollect_of_le
          rw [hwlen]; omega
        rw [htail, hA, lastN]
        rw [List.length_append, List.drop_append_eq_append_drop]
        have hd1 : rest.reverse.flatten.drop
            (rest.reverse.flatten.length + f.length - (t - p)) = [] := by
          apply List.drop_eq_nil_of_le; omega
        have hd2 : rest.reverse.flatten.length + f.length - (t - p)
            - rest.reverse.flatten.length = f.length - (t - p) := by omega
        rw [hd1, hd2]
        simp
      · rw [if_neg hf]
        have hIH := scanCollect_flatten rest t (p + f.length)
        rw [List.reverse_cons, List.flatten_concat, hIH, hA, lastN, lastN]
        rw [List.length_append, List.drop_append_eq_append_drop]
        have hd2 : rest.reverse.flatten.length + f.length - (t - p)
            - rest.reverse.flatten.length = 0 := by omega
        have hd1 : rest.reverse.flatten.length + f.length - (t - p)
            = rest.reverse.flatten.length - (t - (p + f.length)) := by omega
        rw [hd2, hd1, List.drop_zero]

lemma stackSamples_eq_length_flatten (st : List AudioFrame) :
    stackSamples st = st.flatten.length := by
  simp [stackSamples]

lemma scanProcessed_eq (ws : List AudioFrame) :
    scanProcessed ws = ws.reverse.flatten.length := by
  simp [scanProcessed, List.length_flatten, List.map_reverse, List.sum_reverse]

lemma scanSumSq_eq_flatten (ρ : ℝ) : ∀ ws : List AudioFrame,
    scanSumSq ρ ws = ((ws.reverse.flatten).map (fun s : ℚ => ((s : ℝ) / ρ) ^ 2)).sum
  | [] => by simp [scanSumSq]
  | w :: rest => by
    have hIH := scanSumSq_eq_flatten ρ rest
    rw [scanSumSq] at hIH ⊢
    simp only [List.map_cons, List.sum_cons, List.reverse_cons, List.flatten_concat,
      List.map_append, List.sum_append]
    rw [hIH]
    ring

/-- Claim C7: when the retained samples cover at least the classifier patch
window (`target ≤ stackSamples st`), the computed Leq equals
`10*log10((1/n) * sum over the most recent n samples of ((s/reference_pressure)^2))`
with `n = target` and `reference_pressure = 1/10^((94-sensitivity)/20)`, the
samples being read newest-frame-first with the oldest used frame truncated
from its front; and `unprocessed_samples` is reset to 0 by the scan
regardless of the outcome.  The positivity hypothesis on the accumulated
energy is the condition under which `math.log10` is defined. -/
theorem leq_formula (st : List AudioFrame) (sens : ℝ) (n u : ℕ) (hn : 0 < n)
    (htot : n ≤ stackSamples st)
    (hs : 0 < scanSumSq (reference_pressure sens) (scanCollect st.reverse n 0)) :
    (scanStep st (reference_pressure sens) n u).1
        = some (10 * log10 ((1 / (n : ℝ)) *
            ((lastN n st.flatten).map
              (fun s : ℚ => ((s : ℝ) / reference_pressure sens) ^ 2)).sum)) ∧
      (scanStep st (reference_pressure sens) n u).2 = 0 := by
  have hjoin : (scanCollect st.reverse n 0).reverse.flatten = lastN n st.flatten := by
    have h := scanCollect_flatten st.reverse n 0
    simpa [List.reverse_reverse] using h
  have hlenf : n ≤ st.flatten.length := by
    rw [← stackSamples_eq_length_flatten]; exact htot
  have hproc : scanProcessed (scanCollect st.reverse n 0) = n := by
    rw [scanProcessed_eq, hjoin, lastN, List.length_drop]
    omega
  have hsum : scanSumSq (reference_pressure sens) (scanCollect st.reverse n 0)
      = ((lastN n st.flatten).map
          (fun s : ℚ => ((s : ℝ) / reference_pressure sens) ^ 2)).sum := by
    rw [scanSumSq_eq_flatten, hjoin]
  refine ⟨?_, rfl⟩
  show computeLeq st (reference_pressure sens) n = _
  have hc : scanProcessed (scanCollect st.reverse n 0) ≠ 0 ∧
      0 < scanSumSq (reference_pressure sens) (scanCollect st.reverse n 0) /
        (scanProcessed (scanCollect st.reverse n 0) : ℝ) := by
    refine ⟨by omega, ?_⟩
    rw [hproc]
    exact div_pos hs (by exact_mod_cast hn)
  rw [computeLeq, if_pos hc, hsum, hproc, one_div_mul_eq_div]

/-- Witness for `leq_formula`: one frame of four full-scale samples with
`sensitivity = 94` (for which the reference pressure is 1). -/
theorem leq_formula_witness :
    (0 < 4 ∧ 4 ≤ stackSamples [[1, 1, 1, 1]] ∧
        0 < scanSumSq (reference_pressure 94)
          (scanCollect ([[1, 1, 1, 1]] : List AudioFrame).reverse 4 0)) ∧
      ((scanStep [[1, 1, 1, 1]] (reference_pressure 94) 4 7).1
          = some (10 * log10 ((1 / (4 : ℕ) : ℝ) *
              ((lastN 4 ([[1, 1, 1, 1]] : List AudioFrame).flatten).map
                (fun s : ℚ => ((s : ℝ) / reference_pressure 94) ^ 2)).sum)) ∧
        (scanStep [[1, 1, 1, 1]] (reference_pressure 94) 4 7).2 = 0) := by
  have href : reference_pressure 94 = 1 := by
    have h0 : ((94 : ℝ) - 94) / 20 = 0 := by norm_num
    rw [reference_pressure, h0, Real.rpow_zero]
    norm_num
  have hcol : scanCollect ([[1, 1, 1, 1]] : List AudioFrame).reverse 4 0
      = [[1, 1, 1, 1]] := rfl
  have hs : 0 < scanSumSq (reference_pressure 94)
      (scanCollect ([[1, 1, 1, 1]] : List AudioFrame).reverse 4 0) := by
    rw [hcol, href, scanSumSq]
    norm_num
  exact ⟨⟨by norm_num, by norm_num [stackSamples], hs⟩,
    leq_formula [[1, 1, 1, 1]] 94 4 7 (by norm_num) (by norm_num [stackSamples]) hs⟩

lemma scanSumSq_replicate_zero (ρ : ℝ) (k : ℕ) :
    scanSumSq ρ [List.replicate k (0 : ℚ)] = 0 := by
  simp [scanSumSq]

lemma computeLeq_zero_frame (ρ : ℝ) (m t : ℕ) :
    computeLeq [List.replicate m (0 : ℚ)] ρ t = none := by
  have hzero : scanSumSq ρ (scanCollect ([List.replicate m (0 : ℚ)]).reverse t 0) = 0 := by
    rw [List.reverse_singleton]
    rcases Nat.eq_zero_or_pos t with ht | ht
    · subst ht
      rw [scanCollect_of_le _ _ _ (le_refl 0)]
      simp [scanSumSq]
    · rw [scanCollect, if_neg (by omega)]
      by_cases hf : t < (List.replicate m (0 : ℚ)).length + 0
      · rw [if_pos hf]
        simp only [List.drop_replicate, scanCollect]
        exact scanSumSq_replicate_zero ρ _
      · rw [if_neg hf]
        simp only [scanCollect]
        exact scanSumSq_replicate_zero ρ _
  have hnc : ¬ (scanProcessed (scanCollect ([List.replicate m (0 : ℚ)]).reverse t 0) ≠ 0 ∧
      0 < scanSumSq ρ (scanCollect ([List.replicate m (0 : ℚ)]).reverse t 0) /
        (scanProcessed (scanCollect ([List.replicate m (0 : ℚ)]).reverse t 0) : ℝ)) := by
    rintro ⟨-, h2⟩
    rw [hzero, zero_div] at h2
    exact lt_irrefl 0 h2
  rw [computeLeq, if_neg hnc]

/-- Claim C5 (code bug): for a stream of all-zero frames (one second at
`sample_rate = 48000`, so a scan is due since `48000/48000 ≥ 0.96`), the Leq
line `10 * math.log10(sum_samples / processed_samples)` is evaluated on zero
accumulated energy: `math.log10(0.0)` raises ValueError (math domain error).
The evaluation is not guarded and the scan cycle is not skipped cleanly; the
modelled computation returns the fault value `none`. -/
theorem silent_stream_leq_fault :
    scanDue 48000 48000 (96 / 100) ∧
      samples_to_process (96 / 100) 48000 = 46080 ∧
      computeLeq [List.replicate 48000 (0 : ℚ)] (reference_pressure (-2834 / 100)) 46080
        = none := by
  refine ⟨?_, ?_, computeLeq_zero_frame _ _ _⟩
  · unfold scanDue
    norm_num
  · have h : (96 / 100 : ℚ) * ((48000 : ℕ) : ℚ) = ((46080 : ℤ) : ℚ) := by norm_num
    rw [samples_to_process, h, Int.floor_intCast]

/-- `max_value = float(numpy.max(numpy.abs(waveform)))` from the automatic
gain step of `TriggerProcessor.process_tags`. -/
def np_max_abs (w : List ℚ) : ℚ := (w.map (fun s => |s|)).foldr max 0

/-- The automatic gain step of `TriggerProcessor.process_tags`
(`if self.config.yamnet_max_gain > 0: max_value = ...; gain =
10*math.log10(1 / max_value); gain = min(self.config.yamnet_max_gain, gain);
waveform *= 10**(gain/10.0)`).  `none` models the ZeroDivisionError Python
raises at `1 / max_value` when the waveform is all zero; otherwise the
derived gain is capped at `max_gain` and applied. -/
noncomputable def apply_gain (maxGain : ℚ) (w : List ℚ) : Option (List ℝ) :=
  if 0 < maxGain then
    if np_max_abs w = 0 then none
    else
      some (w.map (fun s : ℚ =>
        (s : ℝ) * (10 : ℝ) ^
          ((min (maxGain : ℝ) (10 * log10 (1 / (np_max_abs w : ℝ)))) / 10)))
  else some (w.map (fun s : ℚ => (s : ℝ)))

lemma np_max_abs_replicate_zero : ∀ k : ℕ, np_max_abs (List.replicate k 0) = 0
  | 0 => rfl
  | k + 1 => by
    have ih := np_max_abs_replicate_zero k
    rw [np_max_abs] at ih ⊢
    rw [List.replicate_succ, List.map_cons, List.foldr_cons, ih]
    simp

/-- Claim C6 (code bug): with the default `yamnet_max_gain = 20 > 0` and an
all-zero waveform, the gain step computes `1 / max_value` with
`max_value = 0` — a ZeroDivisionError in Python.  The gain step is not
skipped as a no-gain case; the modelled computation returns the fault value
`none`. -/
theorem silent_waveform_gain_fault :
    apply_gain 20 (List.replicate 48000 0) = none := by
  rw [apply_gain, if_pos (by norm_num : (0 : ℚ) < 20),
    if_pos (np_max_abs_replicate_zero 48000)]

/-- `AES.block_size` (16 bytes). -/
def aes_block_size : ℕ := 16

/-- The padding step of `TriggerProcessor.encrypt`: when the data length is
not a multiple of the AES block size, right-pad with zero bytes up to the
next multiple (`audio_data.ljust(len + block_size - len % block_size, b
null)`). -/
def zero_pad (d : List ℕ) : List ℕ :=
  if 0 < d.length % aes_block_size then
    d ++ List.replicate (aes_block_size - d.length % aes_block_size) 0
  else d

/-- `TriggerProcessor.encrypt`: the payload is the RSA-OAEP encryption of
`aes_key ++ iv` followed by the AES-CBC encryption (keyed by the same
`aes_key`/`iv`) of the zero-padded data.  The RSA and AES primitives are
external library calls, abstracted as function parameters. -/
def encrypt (rsaEnc : List ℕ → List ℕ) (aesEnc : List ℕ → List ℕ → List ℕ)
    (aesKey iv d : List ℕ) : List ℕ :=
  rsaEnc (aesKey ++ iv) ++ aesEnc (aesKey ++ iv) (zero_pad d)

/-- Modelled from the spec: no decryption routine exists in the repository;
claim C8 describes it as parsing the payload as the RSA-OAEP ciphertext of
`AES_key` and `IV` (a fixed-length header) followed by the AES-CBC
ciphertext, recovering key and IV with the matching private key, and
AES-CBC-decrypting the remainder. -/
def decrypt (rsaLen : ℕ) (rsaDec : List ℕ → List ℕ) (aesDec : List ℕ → List ℕ → List ℕ)
    (payload : List ℕ) : List ℕ :=
  aesDec (rsaDec (payload.take rsaLen)) (payload.drop rsaLen)

/-- Claim C8 counterexample: with correctly inverting cipher primitives, the
round trip on the one-byte plaintext `[1]` (unaligned to the AES block size)
yields the zero-padded plaintext `[1, 0, ..., 0]` (16 bytes), not `[1]`: the
zero padding is not removed — nothing records the original length. -/
theorem roundtrip_not_exact_unaligned :
    decrypt 32 id (fun _ d => d)
        (encrypt id (fun _ d => d) (List.replicate 16 0) (List.replicate 16 0) [1]) ≠ [1] := by
  decide

/-- Claim C8 (amended): for every plaintext and every correctly inverting
pair of cipher primitives (an RSA-OAEP header of known length and a keyed
AES-CBC), decrypting the output of `encrypt` reproduces the ZERO-PADDED
plaintext: exactly the original when its length is a multiple of the AES
block size, and otherwise the original followed by `16 - len % 16` zero
bytes (the original is recovered only as a prefix of the result). -/
theorem roundtrip_zero_padded (rsaLen : ℕ) (rsaEnc rsaDec : List ℕ → List ℕ)
    (aesEnc aesDec : List ℕ → List ℕ → List ℕ) (aesKey iv d : List ℕ)
    (hlen : (rsaEnc (aesKey ++ iv)).length = rsaLen)
    (hrsa : rsaDec (rsaEnc (aesKey ++ iv)) = aesKey ++ iv)
    (haes : ∀ x : List ℕ, aesDec (aesKey ++ iv) (aesEnc (aesKey ++ iv) x) = x) :
    decrypt rsaLen rsaDec aesDec (encrypt rsaEnc aesEnc aesKey iv d) = zero_pad d ∧
      zero_pad d = d ++ List.replicate
        ((aes_block_size - d.length % aes_block_size) % aes_block_size) 0 := by
  constructor
  · rw [decrypt, encrypt, ← hlen, List.take_left, List.drop_left, hrsa, haes]
  · rw [zero_pad]
    by_cases h : 0 < d.length % aes_block_size
    · rw [if_pos h]
      have h16 : d.length % aes_block_size < aes_block_size :=
        Nat.mod_lt _ (by norm_num [aes_block_size])
      have hcount : (aes_block_size - d.length % aes_block_size) % aes_block_size
          = aes_block_size - d.length % aes_block_size := Nat.mod_eq_of_lt (by omega)
      rw [hcount]
    · rw [if_neg h]
      have h0 : d.length % aes_block_size = 0 := by omega
      rw [h0]
      simp [aes_block_size]

/-- Witness for `roundtrip_zero_padded` on the 3-byte plaintext `[1, 2, 3]`. -/
theorem roundtrip_zero_padded_witness :
    ((id (List.replicate 16 0 ++ List.replicate 16 0) : List ℕ).length = 32) ∧
      (decrypt 32 id (fun _ d => d)
          (encrypt id (fun _ d => d) (List.replicate 16 0) (List.replicate 16 0) [1, 2, 3])
          = zero_pad [1, 2, 3] ∧
        zero_pad [1, 2, 3] = [1, 2, 3] ++ List.replicate
          ((aes_block_size - ([1, 2, 3] : List ℕ).length % aes_block_size) % aes_block_size) 0) :=
  ⟨by decide,
    roundtrip_zero_padded 32 id id (fun _ d => d) (fun _ d => d)
      (List.replicate 16 0) (List.replicate 16 0) [1, 2, 3] (by decide) rfl (fun x => rfl)⟩
